import Mathlib

/-
  Verification development for the Multi_Model_AI_Agent repository.

  This file gives a shallow embedding of the workflow engine defined in
  src/src/agents.py (the AgentState record, the node functions, the routing
  functions and the graph wiring of create_graph), of the guardrails
  validator CompetitorCheck (src/src/agents.py), and of the retrieval layer
  (src/src/rag.py retrieve_context and src/src/tools.py RetrieverTool._run).

  Modelling conventions:
  - Python dicts are insertion-ordered association lists with unique keys.
  - Every LLM / external-service call is abstracted by an oracle response
    (structure Resp); node functions take the response for the single step
    on which they run.  Quantifying over all oracle streams covers every
    behaviour of the external services.
  - The LangGraph step loop (node, then merge of the partial update, then
    router) is the deterministic function stepPair; traceFn iterates it from
    the entry node.  Interrupt points only pause execution between steps and
    do not change the sequence of executed nodes, so they are irrelevant for
    reachability of the pure step loop (no external state mutation).
  - A node returning a partial update dict is modelled as returning the
    merged state: the update only ever writes whole fields, so the merge is
    exactly a record update.  The messages field (never read or written by
    any node logic) is omitted from the record.
-/

-- ### Python string membership: sub in s (substring containment)

/-- Does the haystack start with the needle? -/
def leadEq : List Char → List Char → Bool
  | [], _ => true
  | _ :: _, [] => false
  | c :: cs, d :: ds => c == d && leadEq cs ds

/-- Is the needle a contiguous sublist of the haystack? -/
def hasSub (needle : List Char) : List Char → Bool
  | [] => needle.isEmpty
  | d :: t => leadEq needle (d :: t) || hasSub needle t

/-- Python `sub in s` for strings. -/
def pyIn (sub s : String) : Bool := hasSub sub.data s.data

/-- Python `s.endswith(suffix)`. -/
def pyEndsWith (s suffix : String) : Bool :=
  leadEq suffix.data.reverse s.data.reverse

/-- Python `s.lower()`, restricted to the ASCII range actually exercised by
the configured competitor names. -/
def pyLower (s : String) : String := String.mk (s.data.map Char.toLower)

/-- Python `s.strip()`. -/
def pyStrip (s : String) : String :=
  String.mk
    (((s.data.dropWhile Char.isWhitespace).reverse.dropWhile Char.isWhitespace).reverse)

/-- Python `s.replace(pat, rep)`: every non-overlapping occurrence, scanned
left to right; an empty pattern matches at every boundary.  The fuel
argument makes the recursion structural; replOnFuel with fuel above the
haystack length never exhausts it. -/
def replOnFuel (pat rep : List Char) : Nat → List Char → List Char
  | 0, hay => hay
  | _ + 1, [] => if pat.isEmpty then rep else []
  | fuel + 1, c :: rest =>
      if pat.isEmpty then rep ++ c :: replOnFuel pat rep fuel rest
      else if leadEq pat (c :: rest) then
        rep ++ replOnFuel pat rep fuel (List.drop pat.length (c :: rest))
      else c :: replOnFuel pat rep fuel rest

/-- Python `s.replace(pat, rep)` on strings. -/
def pyReplace (s pat rep : String) : String :=
  String.mk (replOnFuel pat.data rep.data (s.data.length + 1) s.data)

-- ### Python dicts as insertion-ordered association lists

/-- Key membership, Python `k in d`. -/
def dMem (d : List (String × String)) (k : String) : Bool :=
  d.any (fun p => p.1 == k)

/-- Lookup, Python `d.get(k)`. -/
def dGet (d : List (String × String)) (k : String) : Option String :=
  (d.find? (fun p => p.1 == k)).map Prod.snd

/-- Update-or-append, Python `d[k] = v` (keeps insertion order). -/
def dSet (d : List (String × String)) (k v : String) : List (String × String) :=
  if dMem d k then d.map (fun p => if p.1 == k then (k, v) else p)
  else d ++ [(k, v)]

/-- Deletion, Python `del d[k]` (no-op when the key is absent). -/
def dDel (d : List (String × String)) (k : String) : List (String × String) :=
  d.filter (fun p => p.1 != k)

-- ### AgentState (src/src/agents.py, class AgentState)

/-- The workflow state threaded through the graph.  Field defaults are the
values produced by `state.get(field, default)` on a missing key, so that the
state created by `graph.invoke(\x7bgoal\x7d)` is `initState goal`. -/
structure AgentState where
  goal : String
  plan : List String
  drafts : List (String × String)
  critique : String
  intent : String
  retrieved_docs : String
  retry_count : Nat
  reasoning_trace : String
  current_asset : Option String
  errors : List String
  publish_results : List (String × String)
  user_feedback : List (String × String)
  draft_status : List (String × String)
  feedback_iteration : Nat
deriving DecidableEq, Repr

/-- The state created on first invocation for a goal. -/
def initState (goal : String) : AgentState :=
  { goal := goal, plan := [], drafts := [], critique := "", intent := ""
    retrieved_docs := "", retry_count := 0, reasoning_trace := ""
    current_asset := none, errors := [], publish_results := []
    user_feedback := [], draft_status := [], feedback_iteration := 0 }

/-- Oracle responses standing for all LLM and tool calls a single node makes.
The structured outputs RouterOutput, Plan, GradeRetrieval, GradeHallucination
are flattened into fields; reviewText and pub abstract the per-asset calls of
reviewer_node and publisher_node. -/
structure Resp where
  intent : String := ""
  reasoning : String := ""
  planSteps : List String := []
  retGrade : String := "no"
  hallGrade : String := "yes"
  content : String := ""
  retrieved : String := ""
  reviewText : String → String → String := fun _ _ => ""
  pub : String → String := fun _ => ""

-- ### CompetitorCheck validator (src/src/agents.py, class CompetitorCheck)

/-- Result of a guardrails validator run. -/
inductive ValidationResult where
  | pass : ValidationResult
  | fail (error_message : String) (fix_value : String) : ValidationResult
deriving DecidableEq, Repr

/-- CompetitorCheck.validate: scans the configured competitor list in order;
the first competitor whose lowercase form occurs in the lowercased value
produces a FailResult whose fix_value replaces exact-case occurrences of that
competitor with "[REDACTED]"; otherwise PassResult. -/
def CompetitorCheck.validate (competitors : List String) (value : String) :
    ValidationResult :=
  match competitors with
  | [] => .pass
  | c :: rest =>
      if pyIn (pyLower c) (pyLower value) then
        .fail ("Value contains competitor: " ++ c) (pyReplace value c "[REDACTED]")
      else CompetitorCheck.validate rest value

/-- The competitor list wired into writer_node. -/
def guardCompetitors : List String := ["CompetitorX", "OtherBrand"]

/-- guard.parse with on_fail="fix": the validated output is the fix_value on
failure and the raw value on pass. -/
def applyGuard (raw : String) : String :=
  match CompetitorCheck.validate guardCompetitors raw with
  | .pass => raw
  | .fail _ fx => fx

-- ### Node functions (src/src/agents.py)

/-- The fallback asset name used by retriever_node when every planned asset
already has a draft (or the chosen asset name is falsy). -/
def fallbackAsset : String := "general marketing assets"

/-- The first plan entry that has no draft yet (the retriever/writer scan
`for asset in plan: if asset not in drafts`). -/
def firstMissing (plan : List String) (drafts : List (String × String)) :
    Option String :=
  plan.find? (fun a => !dMem drafts a)

/-- The asset retriever_node settles on: the first plan entry without a
draft, with Python falsiness (`if not current_asset`) sending both "no entry
found" and the empty-string entry to the fallback name. -/
def retrieverChoice (plan : List String) (drafts : List (String × String)) :
    String :=
  match firstMissing plan drafts with
  | some a => if a == "" then fallbackAsset else a
  | none => fallbackAsset

/-- router_node: classifies the goal.  Note that the source sets
reasoning_trace to the router reasoning without appending to the prior
trace. -/
def router_node (r : Resp) (s : AgentState) : AgentState :=
  { s with intent := r.intent
           reasoning_trace := "Router Reasoning: " ++ r.reasoning }

/-- planner_node: stores the plan and appends the planner reasoning. -/
def planner_node (r : Resp) (s : AgentState) : AgentState :=
  { s with plan := r.planSteps
           reasoning_trace := s.reasoning_trace ++ "\nPlanner Reasoning: " ++ r.reasoning }

/-- retrieval_grader: appends the binary relevance grade to the trace. -/
def retrieval_grader (r : Resp) (s : AgentState) : AgentState :=
  { s with reasoning_trace := s.reasoning_trace ++ "\nRetrieval Grade: " ++ r.retGrade }

/-- hallucination_grader: appends the binary grounding grade to the trace. -/
def hallucination_grader (r : Resp) (s : AgentState) : AgentState :=
  { s with reasoning_trace := s.reasoning_trace ++ "\nHallucination Grade: " ++ r.hallGrade }

/-- retriever_node: picks the next asset, resets retry_count when the asset
changed, and stores the retrieved context (r.retrieved abstracts the
knowledge_base_retriever tool output). -/
def retriever_node (r : Resp) (s : AgentState) : AgentState :=
  let choice := retrieverChoice s.plan s.drafts
  let retry := if s.current_asset ≠ some choice then 0 else s.retry_count
  { s with retrieved_docs := r.retrieved
           current_asset := some choice
           retry_count := retry }

/-- writer_node: recomputes the asset when the stored one is falsy or already
drafted, returns an empty update when no asset remains, otherwise writes the
guardrails-validated content into drafts.  The guardrails exception fallback
(except branch) is not reachable in this model because the modelled guard
never raises. -/
def writer_node (r : Resp) (s : AgentState) : AgentState :=
  let pyFalsy : Option String → Bool := fun c =>
    match c with | none => true | some a => a == ""
  let recompute := pyFalsy s.current_asset ||
    (match s.current_asset with | none => false | some a => dMem s.drafts a)
  let c1 : Option String :=
    if recompute then
      match firstMissing s.plan s.drafts with
      | some a => some a
      | none => s.current_asset
    else s.current_asset
  if pyFalsy c1 then s
  else
    match c1 with
    | none => s
    | some a =>
        let raw := r.content
        let validated := applyGuard raw
        let add :=
          if validated == raw then "\nWriter: Generated " ++ a
          else "\nWriter: Generated " ++ a ++ " (Guardrails applied fixes)"
        { s with drafts := dSet s.drafts a validated
                 current_asset := some a
                 reasoning_trace := s.reasoning_trace ++ add }

/-- reviewer_node: one review call per draft, concatenated into critique. -/
def reviewer_node (r : Resp) (s : AgentState) : AgentState :=
  let critique := s.drafts.foldl
    (fun acc p => acc ++ "**" ++ p.1 ++ " Review:**\n" ++ r.reviewText p.1 p.2 ++ "\n\n") ""
  { s with critique := critique }

/-- chitchat_node: a direct completion answer stored in critique. -/
def chitchat_node (r : Resp) (s : AgentState) : AgentState :=
  { s with critique := r.content }

/-- clarification_node: canned clarification request. -/
def clarification_node (s : AgentState) : AgentState :=
  { s with critique := "Your request is a bit ambiguous. Could you please provide more details about your campaign goal?" }

/-- query_rewriter_node: replaces the goal with the rewritten query and
increments retry_count. -/
def query_rewriter_node (r : Resp) (s : AgentState) : AgentState :=
  { s with goal := r.content
           retry_count := s.retry_count + 1 }

/-- feedback_processor_node: removes drafts whose status is needs_revision,
increments feedback_iteration and targets the first such asset; with nothing
to revise it returns the unchanged feedback_iteration. -/
def feedback_processor_node (s : AgentState) : AgentState :=
  let toRevise :=
    (s.draft_status.filter (fun p => p.2 == "needs_revision")).map Prod.fst
  match toRevise with
  | [] => { s with feedback_iteration := s.feedback_iteration }
  | a :: rest =>
      { s with drafts := (a :: rest).foldl dDel s.drafts
               feedback_iteration := s.feedback_iteration + 1
               current_asset := some a }

/-- publisher_node: one doc/calendar result per draft (r.pub abstracts the
Google Docs and Calendar calls and the formatted result string). -/
def publisher_node (r : Resp) (s : AgentState) : AgentState :=
  { s with publish_results := s.drafts.map (fun p => (p.1, r.pub p.1)) }

-- ### Routing functions (src/src/agents.py)

/-- route_after_router: ChitChat and ClarificationNeeded go to their node,
every other intent to planner. -/
def route_after_router (s : AgentState) : String :=
  if s.intent == "ChitChat" then "chitchat"
  else if s.intent == "ClarificationNeeded" then "clarification"
  else "planner"

/-- route_after_retrieval_grade: substring check of the whole trace, then the
bounded-retry test. -/
def route_after_retrieval_grade (s : AgentState) : String :=
  if pyIn "Retrieval Grade: yes" s.reasoning_trace then "writer"
  else if s.retry_count < 1 then "query_rewriter"
  else "writer"

/-- route_after_hallucination_grade: retry on an ungrounded draft when the
budget allows, otherwise advance to the next asset or to the feedback
processor. -/
def route_after_hallucination_grade (s : AgentState) : String :=
  if pyIn "Hallucination Grade: no" s.reasoning_trace ∧ s.retry_count < 1 then
    "query_rewriter"
  else if s.drafts.length < s.plan.length then "retriever"
  else "feedback_processor"

/-- route_after_feedback: regenerate when any draft status is
needs_revision, otherwise proceed to review. -/
def route_after_feedback (s : AgentState) : String :=
  if s.draft_status.any (fun p => p.2 == "needs_revision") then "retriever"
  else "reviewer"

-- ### Graph wiring (src/src/agents.py, create_graph)

/-- The nodes of the compiled graph, plus the END marker. -/
inductive Node where
  | router | planner | retriever | retrieval_grader | writer
  | hallucination_grader | reviewer | publisher | chitchat | clarification
  | query_rewriter | feedback_processor | terminal
deriving DecidableEq, Repr

/-- Edges of create_graph: fixed edges plus the conditional-edge dictionaries
applied to the routing functions. -/
def nextNode (n : Node) (s : AgentState) : Node :=
  match n with
  | .router =>
      match route_after_router s with
      | "chitchat" => .chitchat
      | "clarification" => .clarification
      | _ => .planner
  | .planner => .retriever
  | .retriever => .retrieval_grader
  | .retrieval_grader =>
      match route_after_retrieval_grade s with
      | "query_rewriter" => .query_rewriter
      | _ => .writer
  | .query_rewriter => .retriever
  | .writer => .hallucination_grader
  | .hallucination_grader =>
      match route_after_hallucination_grade s with
      | "query_rewriter" => .query_rewriter
      | "retriever" => .retriever
      | _ => .feedback_processor
  | .feedback_processor =>
      match route_after_feedback s with
      | "retriever" => .retriever
      | _ => .reviewer
  | .reviewer => .publisher
  | .publisher => .terminal
  | .chitchat => .terminal
  | .clarification => .terminal
  | .terminal => .terminal

/-- Execute one node with the oracle response for this step. -/
def runNode (n : Node) (r : Resp) (s : AgentState) : AgentState :=
  match n with
  | .router => router_node r s
  | .planner => planner_node r s
  | .retriever => retriever_node r s
  | .retrieval_grader => retrieval_grader r s
  | .writer => writer_node r s
  | .hallucination_grader => hallucination_grader r s
  | .reviewer => reviewer_node r s
  | .publisher => publisher_node r s
  | .chitchat => chitchat_node r s
  | .clarification => clarification_node s
  | .query_rewriter => query_rewriter_node r s
  | .feedback_processor => feedback_processor_node s
  | .terminal => s

/-- One iteration of the engine step loop: run the pending node, merge its
update, consult the router.  The END marker is absorbing. -/
def stepPair (r : Resp) : Node × AgentState → Node × AgentState
  | (n, s) =>
      if n = Node.terminal then (Node.terminal, s)
      else
        let s' := runNode n r s
        (nextNode n s', s')

/-- The run of the step loop from the entry node on the state created for a
goal, driven by the oracle stream resp.  Position n carries the pending node
and the state it will see. -/
def traceFn (resp : Nat → Resp) (goal : String) : Nat → Node × AgentState
  | 0 => (Node.router, initState goal)
  | n + 1 => stepPair (resp n) (traceFn resp goal n)

/-- Pending node at step n. -/
def pcAt (resp : Nat → Resp) (goal : String) (n : Nat) : Node :=
  (traceFn resp goal n).1

/-- State at step n. -/
def stAt (resp : Nat → Resp) (goal : String) (n : Nat) : AgentState :=
  (traceFn resp goal n).2

-- ### Concrete oracle scripts used by counterexamples and witnesses

/-- Oracle stream whose retrieval grader always answers "no" and whose
planner emits a plan containing the retriever fallback name plus a padded
duplicate entry. -/
def respC3 : Nat → Resp := fun _ =>
  { intent := "Factual", reasoning := "r", planSteps := [fallbackAsset, "X", "X"]
    retGrade := "no", hallGrade := "yes", content := "c", retrieved := "ctx" }

/-- Oracle stream whose planner emits an empty plan and whose retrieval
grader accepts. -/
def respC4 : Nat → Resp := fun _ =>
  { intent := "Factual", reasoning := "r", planSteps := []
    retGrade := "yes", hallGrade := "yes", content := "c", retrieved := "ctx" }

/-- Oracle stream with an always-"no" retrieval grader and a two-asset plan
free of the fallback name. -/
def respC3w : Nat → Resp := fun _ =>
  { intent := "Factual", reasoning := "r", planSteps := ["A", "B"]
    retGrade := "no", hallGrade := "yes", content := "c", retrieved := "ctx" }

-- ### Execution engine sessions (spec section 4.3)

/-- Modelled from the spec: the Execution Engine state machine of section
4.3 (invoke, resume, checkpoints, SessionAlreadyStarted, SessionNotFound,
SessionComplete).  The engine itself is supplied by the external workflow
library (create_graph only compiles the graph with a checkpointer and the
interrupt set); the repository sources contain only its callers (backend.py,
app.py), so the invoke and resume operations are modelled faithfully from
the words of the spec, with the step loop instantiated to the graph embedded
above. -/
structure Checkpoint where
  state : AgentState
  nextNodeName : Node
  version : Nat

/-- Errors surfaced by the session layer (spec sections 4.3, 6, 7). -/
inductive EngineError where
  | sessionAlreadyStarted | sessionNotFound | sessionComplete
deriving DecidableEq, Repr

/-- One checkpoint per session id (last-write-wins). -/
abbrev SessionStore := List (String × Checkpoint)

/-- Checkpoint lookup for a session id. -/
def storeGet (st : SessionStore) (sid : String) : Option Checkpoint :=
  (st.find? (fun p => p.1 == sid)).map Prod.snd

/-- Overwrite (or create) the checkpoint of a session id. -/
def storePut (st : SessionStore) (sid : String) (cp : Checkpoint) : SessionStore :=
  if (st.find? (fun p => p.1 == sid)).isSome then
    st.map (fun p => if p.1 == sid then (sid, cp) else p)
  else st ++ [(sid, cp)]

/-- The interrupt set compiled into create_graph: the engine pauses before
entering any of these nodes. -/
def interruptPoints : List Node := [.retriever, .feedback_processor, .publisher]

/-- Modelled from the spec: the engine step loop of section 4.3 — execute the
current node, merge its update, consult the router; pause before an interrupt
point, stop at the terminal marker.  Returns the executed nodes, the pending
node and the final state.  The fuel argument is a modelling device bounding
the number of steps of one invocation; exhausted fuel behaves like a pause. -/
def stepLoop (resp : Nat → Resp) : Nat → Nat → Node → AgentState →
    List Node × Node × AgentState
  | _, 0, n, s => ([], n, s)
  | idx, fuel + 1, n, s =>
      if n = Node.terminal then ([], Node.terminal, s)
      else
        let s' := runNode n (resp idx) s
        let t := nextNode n s'
        if t ∈ interruptPoints then ([n], t, s')
        else
          let rest := stepLoop resp (idx + 1) fuel t s'
          (n :: rest.1, rest.2.1, rest.2.2)

/-- Modelled from the spec: invoke(sessionId, initialInput).  With no
checkpoint for the session id it creates a fresh WorkflowState from the
input and enters the step loop at the entry node; with an existing
checkpoint it fails with SessionAlreadyStarted, executing no node and
leaving the store unchanged. -/
def invoke (resp : Nat → Resp) (fuel : Nat) (store : SessionStore)
    (sid goal : String) : Except EngineError Unit × SessionStore × List Node :=
  match storeGet store sid with
  | some _ => (.error .sessionAlreadyStarted, store, [])
  | none =>
      let r := stepLoop resp 0 fuel Node.router (initState goal)
      (.ok (), storePut store sid ⟨r.2.2, r.2.1, 1⟩, r.1)

/-- Modelled from the spec: resume(sessionId, optionalStateMutation) — loads
the checkpoint (SessionNotFound when absent, SessionComplete when terminal),
applies the optional external mutation, and re-enters the step loop at the
stored pending node. -/
def resume (resp : Nat → Resp) (fuel : Nat) (store : SessionStore)
    (sid : String) (mutation : Option (AgentState → AgentState)) :
    Except EngineError Unit × SessionStore × List Node :=
  match storeGet store sid with
  | none => (.error .sessionNotFound, store, [])
  | some cp =>
      if cp.nextNodeName = Node.terminal then (.error .sessionComplete, store, [])
      else
        let s0 := match mutation with | none => cp.state | some f => f cp.state
        let r := stepLoop resp 0 fuel cp.nextNodeName s0
        (.ok (), storePut store sid ⟨r.2.2, r.2.1, cp.version + 1⟩, r.1)

-- ### Retrieval layer (src/src/rag.py and src/src/tools.py)

/-- The sentinel text retrieve_context returns when the persistence
directory does not exist. -/
def noKbSentinel : String := "No knowledge base found. Please run ingestion."

/-- retrieve_context (src/src/rag.py): when no vector index exists at the
persistence directory it returns the sentinel before any fallible call;
otherwise it runs the underlying vector-store retrieval, abstracted as
search, whose exceptions are the error branch. -/
def retrieve_context (indexExists : Bool)
    (search : String → Except String String) (query : String) :
    Except String String :=
  if indexExists then search query else .ok noKbSentinel

/-- RetrieverTool._run (src/src/tools.py): wraps retrieve_context, mapping
every exception to an error string and the empty or sentinel context to a
knowledge-base-missing error string. -/
def RetrieverTool_run (indexExists : Bool)
    (search : String → Except String String) (query : String) : String :=
  match retrieve_context indexExists search query with
  | .error e =>
      "Error: An unexpected error occurred while retrieving context: " ++ e ++
        ". Please try a different query or check the system status."
  | .ok context =>
      if context == "" || pyStrip context == noKbSentinel then
        "Error: The knowledge base is empty or not found. Please ensure documents are ingested before searching."
      else context

-- concrete states for counterexamples and witnesses

def c1State : AgentState :=
  { initState "g" with reasoning_trace := "Retrieval Grade: yes\nRetrieval Grade: no" }

def c2State : AgentState :=
  { initState "g" with draft_status := [("A", "needs_revision"), ("B", "approved")]
                       drafts := [("A", "x"), ("B", "y")] }

def c7State : AgentState :=
  { initState "g" with plan := ["A", "B"]
                       drafts := [("A", "x"), ("B", "y")]
                       draft_status := [("A", "needs_revision")]
                       current_asset := some "B"
                       retry_count := 1 }

def searchBoom : String → Except String String := fun _ => .error "boom"

def c6State : AgentState :=
  { initState "g" with draft_status := [("A", "needs_revision")]
                       drafts := [("A", "x")]
                       feedback_iteration := 4 }

-- ## theorems

/-- C1 counterexample: a state whose reasoning trace merely contains (but
does not end with) "Retrieval Grade: yes", with retry_count 0, is routed to
writer, where the claim as stated demands query_rewriter. -/
theorem c1_counterexample :
    pyEndsWith c1State.reasoning_trace "Retrieval Grade: yes" = false ∧
    c1State.retry_count < 1 ∧
    route_after_retrieval_grade c1State = "writer" ∧
    route_after_retrieval_grade c1State ≠ "query_rewriter" := by decide

/-- C1 (amended): after retrieval_grader, the router returns writer when the
trace CONTAINS "Retrieval Grade: yes" anywhere; otherwise query_rewriter when
retry_count < 1, and writer when the retry budget is spent. -/
theorem c1_route_after_retrieval_grade_spec (s : AgentState) :
    (pyIn "Retrieval Grade: yes" s.reasoning_trace = true →
        route_after_retrieval_grade s = "writer") ∧
    (pyIn "Retrieval Grade: yes" s.reasoning_trace = false → s.retry_count < 1 →
        route_after_retrieval_grade s = "query_rewriter") ∧
    (pyIn "Retrieval Grade: yes" s.reasoning_trace = false → ¬ s.retry_count < 1 →
        route_after_retrieval_grade s = "writer") := by
  unfold route_after_retrieval_grade
  exact ⟨fun h1 => by simp [h1], fun h1 h2 => by simp [h1, h2], fun h1 h2 => by simp [h1, h2]⟩

/-- C1 witness: the amended routing rule evaluated at a concrete state. -/
theorem c1_witness :
    pyIn "Retrieval Grade: yes" c1State.reasoning_trace = true ∧
    route_after_retrieval_grade c1State = "writer" :=
  ⟨by decide, (c1_route_after_retrieval_grade_spec c1State).1 (by decide)⟩

/-- C2: for every state with draft_status mapping A to needs_revision and B
to approved, and drafts mapping A and B, feedback_processor removes the A
draft, increments feedback_iteration by one, and the router then sends the
resulting state to retriever, not reviewer. -/
theorem c2_feedback_revision_flow (s : AgentState) (x y : String)
    (hst : s.draft_status = [("A", "needs_revision"), ("B", "approved")])
    (hdr : s.drafts = [("A", x), ("B", y)]) :
    (feedback_processor_node s).drafts = [("B", y)] ∧
    (feedback_processor_node s).feedback_iteration = s.feedback_iteration + 1 ∧
    route_after_feedback (feedback_processor_node s) = "retriever" ∧
    route_after_feedback (feedback_processor_node s) ≠ "reviewer" := by
  unfold feedback_processor_node route_after_feedback
  simp [hst, hdr, dDel]

/-- C2 witness: the feedback revision flow at a concrete state. -/
theorem c2_witness :
    (feedback_processor_node c2State).drafts = [("B", "y")] ∧
    (feedback_processor_node c2State).feedback_iteration = c2State.feedback_iteration + 1 ∧
    route_after_feedback (feedback_processor_node c2State) = "retriever" ∧
    route_after_feedback (feedback_processor_node c2State) ≠ "reviewer" :=
  c2_feedback_revision_flow c2State "x" "y" rfl rfl

/-- C5 counterexample: query_rewriter_node overwrites the goal field with
the rewritten query, so goal is not immutable across all nodes. -/
theorem c5_counterexample :
    (query_rewriter_node { content := "b" } (initState "a")).goal ≠ (initState "a").goal := by
  decide

/-- C5 (amended): every node of the workflow except query_rewriter returns
an update that leaves the goal field unchanged. -/
theorem c5_goal_immutable_except_query_rewriter (n : Node) (r : Resp) (s : AgentState)
    (hn : n ≠ Node.query_rewriter) :
    (runNode n r s).goal = s.goal := by
  cases n
  case query_rewriter => exact absurd rfl hn
  case writer =>
    simp only [runNode, writer_node]
    repeat' split
    all_goals rfl
  case feedback_processor =>
    simp only [runNode, feedback_processor_node]
    split <;> rfl
  all_goals rfl

/-- C5 witness: the planner node leaves a concrete goal unchanged. -/
theorem c5_witness :
    (runNode Node.planner { planSteps := ["A"] } (initState "goal")).goal = "goal" :=
  c5_goal_immutable_except_query_rewriter Node.planner { planSteps := ["A"] }
    (initState "goal") (by decide)

/-- C6 counterexample: with no draft marked needs_revision the
feedback_processor update carries the old feedback_iteration, not the old
value plus one. -/
theorem c6_counterexample :
    (feedback_processor_node (initState "g")).feedback_iteration =
      (initState "g").feedback_iteration ∧
    (feedback_processor_node (initState "g")).feedback_iteration ≠
      (initState "g").feedback_iteration + 1 := by decide

/-- C6 (amended): feedback_processor increments feedback_iteration exactly
when some draft status is needs_revision, and returns it unchanged
otherwise: the increment is conditional, not unconditional. -/
theorem c6_feedback_iteration_conditional (s : AgentState) :
    (s.draft_status.any (fun p => p.2 == "needs_revision") = true →
        (feedback_processor_node s).feedback_iteration = s.feedback_iteration + 1) ∧
    (s.draft_status.any (fun p => p.2 == "needs_revision") = false →
        (feedback_processor_node s).feedback_iteration = s.feedback_iteration) := by
  constructor
  · intro hany
    unfold feedback_processor_node
    rcases h : (s.draft_status.filter (fun p => p.2 == "needs_revision")).map Prod.fst with _ | ⟨a, rest⟩
    · exfalso
      have hfil : s.draft_status.filter (fun p => p.2 == "needs_revision") = [] := by
        simpa using h
      rw [List.filter_eq_nil_iff] at hfil
      rcases List.any_eq_true.mp hany with ⟨p, hp, hpv⟩
      exact hfil p hp hpv
    · simp only [h]
  · intro hany
    unfold feedback_processor_node
    rcases h : (s.draft_status.filter (fun p => p.2 == "needs_revision")).map Prod.fst with _ | ⟨a, rest⟩
    · simp only [h]
    · exfalso
      have hne : s.draft_status.filter (fun p => p.2 == "needs_revision") ≠ [] := by
        intro hz; rw [hz] at h; simp at h
      rcases List.exists_mem_of_ne_nil _ hne with ⟨p, hp⟩
      have hmem := List.mem_filter.mp hp
      have : s.draft_status.any (fun q => q.2 == "needs_revision") = true :=
        List.any_eq_true.mpr ⟨p, hmem.1, hmem.2⟩
      rw [hany] at this
      exact Bool.false_ne_true this

/-- C6 witness: the increment branch at a concrete state. -/
theorem c6_witness :
    (feedback_processor_node c6State).feedback_iteration = 5 :=
  (c6_feedback_iteration_conditional c6State).1 (by decide)

/-- C7 counterexample: feedback_processor moves current_asset from B to A
while leaving retry_count at 1, so a current_asset change does not always
reset retry_count. -/
theorem c7_counterexample :
    (feedback_processor_node c7State).current_asset = some "A" ∧
    c7State.current_asset = some "B" ∧
    (feedback_processor_node c7State).retry_count = 1 ∧
    (feedback_processor_node c7State).retry_count ≠ 0 := by decide

/-- C7 (amended): the retriever node resets retry_count to 0 whenever it
changes current_asset, but the feedback_processor node can change
current_asset while leaving a nonzero retry_count untouched. -/
theorem c7_retry_reset_split :
    (∀ (r : Resp) (s : AgentState),
        (retriever_node r s).current_asset ≠ s.current_asset →
        (retriever_node r s).retry_count = 0) ∧
    (∃ s : AgentState,
        (feedback_processor_node s).current_asset ≠ s.current_asset ∧
        (feedback_processor_node s).retry_count = s.retry_count ∧
        s.retry_count ≠ 0) := by
  constructor
  · intro r s h
    by_cases hc : s.current_asset = some (retrieverChoice s.plan s.drafts)
    · exact absurd (by simp [retriever_node, hc]) h
    · simp [retriever_node, hc]
  · exact ⟨c7State, by decide, by decide, by decide⟩

/-- C7 witness: the retriever reset applied at a concrete state whose
current_asset changes. -/
theorem c7_witness :
    (retriever_node { } { initState "g" with plan := ["A"] }).retry_count = 0 :=
  c7_retry_reset_split.1 { } { initState "g" with plan := ["A"] } (by decide)

/-- C9: knowledge lookup never raises for "not found": with no vector index
retrieve_context returns the sentinel text, and RetrieverTool._run returns
an error string for the missing knowledge base and for every exception of
the underlying retrieval. -/
theorem c9_lookup_never_raises (search : String → Except String String) (query : String) :
    retrieve_context false search query = .ok noKbSentinel ∧
    RetrieverTool_run false search query =
      "Error: The knowledge base is empty or not found. Please ensure documents are ingested before searching." ∧
    (∀ e, search query = .error e →
        RetrieverTool_run true search query =
          "Error: An unexpected error occurred while retrieving context: " ++ e ++
            ". Please try a different query or check the system status.") := by
  refine ⟨rfl, rfl, fun e he => ?_⟩
  unfold RetrieverTool_run retrieve_context
  simp [he]

/-- C9 witness: the sentinel and the error-wrapping branch at a concrete
failing search. -/
theorem c9_witness :
    retrieve_context false searchBoom "q" = .ok noKbSentinel ∧
    RetrieverTool_run true searchBoom "q" =
      "Error: An unexpected error occurred while retrieving context: boom. Please try a different query or check the system status." :=
  ⟨(c9_lookup_never_raises searchBoom "q").1,
   (c9_lookup_never_raises searchBoom "q").2.2 "boom" rfl⟩

/-- C10: CompetitorCheck.validate passes exactly when no configured
competitor occurs in the value under case-insensitive comparison, and a
FailResult carries a fix_value that replaces only exact-case occurrences of
the matched competitor with "[REDACTED]". -/
theorem c10_competitor_check (competitors : List String) (value : String) :
    (CompetitorCheck.validate competitors value = .pass ↔
      ∀ c ∈ competitors, pyIn (pyLower c) (pyLower value) = false) ∧
    (∀ em fx, CompetitorCheck.validate competitors value = .fail em fx →
      ∃ c ∈ competitors, pyIn (pyLower c) (pyLower value) = true ∧
        fx = pyReplace value c "[REDACTED]") := by
  induction competitors with
  | nil => simp [CompetitorCheck.validate]
  | cons c rest ih =>
      by_cases h : pyIn (pyLower c) (pyLower value) = true
      · constructor
        · simp [CompetitorCheck.validate, h]
        · intro em fx hf
          rw [CompetitorCheck.validate, if_pos h] at hf
          simp only [ValidationResult.fail.injEq] at hf
          exact ⟨c, List.mem_cons_self c rest, h, hf.2.symm⟩
      · have hfalse : pyIn (pyLower c) (pyLower value) = false := by
          simpa using h
        constructor
        · rw [CompetitorCheck.validate, if_neg h]
          simp [hfalse, ih.1]
        · intro em fx hf
          rw [CompetitorCheck.validate, if_neg h] at hf
          rcases ih.2 em fx hf with ⟨d, hd, hdin, hdfx⟩
          exact ⟨d, List.mem_cons_of_mem _ hd, hdin, hdfx⟩

/-- C10 witness: a case-differing mention is flagged while the fix leaves
the text unchanged. -/
theorem c10_witness :
    ∃ c ∈ ["CompetitorX"], pyIn (pyLower c) (pyLower "use competitorx now") = true ∧
      "use competitorx now" = pyReplace "use competitorx now" c "[REDACTED]" :=
  (c10_competitor_check ["CompetitorX"] "use competitorx now").2
    "Value contains competitor: CompetitorX" "use competitorx now" (by decide)

/-- C3 counterexample: with a retrieval grader that always answers "no" and
the plan [fallbackAsset, X, X], the step loop enters query_rewriter at steps
4 and 18 with the same current_asset "general marketing assets". -/
theorem c3_counterexample :
    (∀ n, (respC3 n).retGrade = "no") ∧
    pcAt respC3 "g" 4 = Node.query_rewriter ∧
    pcAt respC3 "g" 18 = Node.query_rewriter ∧
    (stAt respC3 "g" 4).current_asset = some fallbackAsset ∧
    (stAt respC3 "g" 18).current_asset = some fallbackAsset :=
  ⟨fun _ => rfl, by decide, by decide, by decide, by decide⟩

/-- C4 counterexample: with an empty plan, the reachable state after the
writer step has the draft key "general marketing assets", which is not a
plan entry. -/
theorem c4_counterexample :
    dMem (stAt respC4 "g" 5).drafts fallbackAsset = true ∧
    fallbackAsset ∉ (stAt respC4 "g" 5).plan := by
  exact ⟨by decide, by decide⟩

theorem storeGet_storePut (st : SessionStore) (sid : String) (cp : Checkpoint) :
    storeGet (storePut st sid cp) sid = some cp := by
  induction st with
  | nil => simp [storeGet, storePut]
  | cons p t ih =>
      unfold storePut
      by_cases hp : (p.1 == sid) = true
      · simp only [List.find?_cons, hp, Option.isSome_some, if_true]
        simp only [storeGet, List.map_cons, if_pos hp, List.find?_cons, beq_self_eq_true]
        rfl
      · have hb : (p.1 == sid) = false := by
          cases hb2 : (p.1 == sid) with
          | true => exact absurd hb2 hp
          | false => rfl
        simp only [List.find?_cons, hb]
        unfold storePut at ih
        by_cases ht : (List.find? (fun q => q.1 == sid) t).isSome = true
        · rw [if_pos ht] at ih
          rw [if_pos ht]
          have hstep : List.map (fun q => if (q.1 == sid) = true then (sid, cp) else q) (p :: t) =
              p :: List.map (fun q => if (q.1 == sid) = true then (sid, cp) else q) t := by
            simp only [List.map_cons]
            rw [if_neg hp]
          rw [hstep]
          unfold storeGet at ih ⊢
          rw [List.find?_cons, hb]
          exact ih
        · rw [if_neg ht] at ih
          rw [if_neg ht]
          rw [List.cons_append]
          unfold storeGet at ih ⊢
          rw [List.find?_cons, hb]
          exact ih

/-- C8: invoke on a session id that already has a checkpoint fails with
SessionAlreadyStarted, leaving the store unchanged and executing no node;
invoke creates fresh state from the initial input only when no checkpoint
exists (after which a second invoke fails with SessionAlreadyStarted);
resume fails with SessionNotFound for an unknown session id and is the
operation that continues an existing non-terminal session. -/
theorem c8_invoke_requires_fresh_session (resp resp2 : Nat → Resp)
    (fuel fuel2 : Nat) (store : SessionStore) (sid goal goal2 : String) :
    (∀ cp, storeGet store sid = some cp →
        invoke resp fuel store sid goal = (.error .sessionAlreadyStarted, store, [])) ∧
    (storeGet store sid = none →
        (invoke resp fuel store sid goal).1 = .ok () ∧
        (invoke resp fuel store sid goal).2.1 =
          storePut store sid
            ⟨(stepLoop resp 0 fuel Node.router (initState goal)).2.2,
             (stepLoop resp 0 fuel Node.router (initState goal)).2.1, 1⟩ ∧
        (invoke resp2 fuel2 (invoke resp fuel store sid goal).2.1 sid goal2).1 =
          .error .sessionAlreadyStarted) ∧
    (storeGet store sid = none →
        resume resp fuel store sid none = (.error .sessionNotFound, store, [])) ∧
    (∀ cp, storeGet store sid = some cp → cp.nextNodeName ≠ Node.terminal →
        (resume resp fuel store sid none).1 = .ok ()) := by
  refine ⟨?_, ?_, ?_, ?_⟩
  · intro cp hcp
    unfold invoke
    rw [hcp]
  · intro hn
    unfold invoke
    rw [hn]
    refine ⟨rfl, rfl, ?_⟩
    rw [storeGet_storePut]
  · intro hn
    unfold resume
    rw [hn]
  · intro cp hcp hterm
    unfold resume
    rw [hcp]
    simp [hterm]

/-- C8 witness: a concrete double start and a resume of an unknown
session. -/
theorem c8_witness :
    (invoke (fun _ => { }) 3 [] "sid" "launch").1 = .ok () ∧
    (invoke (fun _ => { }) 3 (invoke (fun _ => { }) 3 [] "sid" "launch").2.1 "sid" "launch").1 =
      .error .sessionAlreadyStarted ∧
    (resume (fun _ => { }) 3 [] "sid" none).1 = .error .sessionNotFound := by
  have h := c8_invoke_requires_fresh_session (fun _ => { }) (fun _ => { }) 3 3 [] "sid" "launch" "launch"
  refine ⟨(h.2.1 rfl).1, (h.2.1 rfl).2.2, ?_⟩
  rw [h.2.2.1 rfl]

-- ### Dictionary and firstMissing lemmas

theorem dMem_map_update (d : List (String × String)) (k v k' : String) :
    dMem (d.map (fun p => if p.1 == k then (k, v) else p)) k' = dMem d k' := by
  induction d with
  | nil => rfl
  | cons p t ih =>
      simp only [List.map_cons, dMem, List.any_cons] at ih ⊢
      have hh : ((if (p.1 == k) = true then (k, v) else p).1 == k') = (p.1 == k') := by
        by_cases hp : (p.1 == k) = true
        · rw [if_pos hp]
          have hpe : p.1 = k := beq_iff_eq.mp hp
          rw [hpe]
        · rw [if_neg hp]
      rw [hh, ih]

theorem dMem_dSet (d : List (String × String)) (k v k' : String) :
    dMem (dSet d k v) k' = (dMem d k' || (k == k')) := by
  unfold dSet
  by_cases hk : dMem d k = true
  · rw [if_pos hk, dMem_map_update]
    by_cases hkk : (k == k') = true
    · have hke : k = k' := beq_iff_eq.mp hkk
      subst hke
      simp [hk]
    · have hkf : (k == k') = false := by
        cases h2 : (k == k') with
        | true => exact absurd h2 hkk
        | false => rfl
      rw [hkf, Bool.or_false]
  · rw [if_neg hk]
    unfold dMem
    rw [List.any_append]
    simp [List.any_cons]

theorem fm_some_facts (P : List String) (d : List (String × String)) (a : String)
    (h : firstMissing P d = some a) : dMem d a = false ∧ a ∈ P := by
  refine ⟨?_, List.mem_of_find?_eq_some h⟩
  have := List.find?_some h
  simpa using this

theorem fm_mono (P : List String) (d d' : List (String × String)) (a : String)
    (h : firstMissing P d = some a)
    (hmono : ∀ x, dMem d x = true → dMem d' x = true)
    (ha : dMem d' a = false) : firstMissing P d' = some a := by
  rw [firstMissing, List.find?_eq_some] at h ⊢
  obtain ⟨hpa, as, bs, hP, hpre⟩ := h
  refine ⟨by simp [ha], as, bs, hP, ?_⟩
  intro x hx
  have hdx : dMem d x = true := by
    have := hpre x hx
    simpa using this
  simpa using hmono x hdx

theorem fm_none_mono (P : List String) (d d' : List (String × String))
    (h : firstMissing P d = none)
    (hmono : ∀ x, dMem d x = true → dMem d' x = true) :
    firstMissing P d' = none := by
  rw [firstMissing, List.find?_eq_none] at h ⊢
  intro x hx
  have hdx : dMem d x = true := by
    have := h x hx
    simpa using this
  simpa using hmono x hdx

theorem choice_cases (P : List String) (d : List (String × String)) :
    (retrieverChoice P d = fallbackAsset ∧
      (firstMissing P d = none ∨ firstMissing P d = some "" ∨
       firstMissing P d = some fallbackAsset)) ∨
    (∃ a, firstMissing P d = some a ∧ (a == "") = false ∧ retrieverChoice P d = a) := by
  unfold retrieverChoice
  rcases hfm : firstMissing P d with _ | a
  · exact Or.inl ⟨rfl, Or.inl rfl⟩
  · by_cases ha : (a == "") = true
    · have : a = "" := beq_iff_eq.mp ha
      subst this
      dsimp only
      rw [if_pos ha]
      exact Or.inl ⟨rfl, Or.inr (Or.inl rfl)⟩
    · have haf : (a == "") = false := by
        cases h2 : (a == "") with
        | true => exact absurd h2 ha
        | false => rfl
      dsimp only
      rw [if_neg ha]
      by_cases hg : a = fallbackAsset
      · subst hg
        exact Or.inl ⟨rfl, Or.inr (Or.inr rfl)⟩
      · exact Or.inr ⟨a, rfl, haf, rfl⟩

theorem choice_eq_of_ne_G (P : List String) (d : List (String × String)) (a : String)
    (h : retrieverChoice P d = a) (hG : a ≠ fallbackAsset) :
    firstMissing P d = some a ∧ (a == "") = false := by
  rcases choice_cases P d with ⟨hc, _⟩ | ⟨b, hfm, hbne, hc⟩
  · rw [hc] at h; exact absurd h.symm hG
  · rw [hc] at h; subst h; exact ⟨hfm, hbne⟩

theorem choice_mem_or_G (P : List String) (d : List (String × String)) :
    retrieverChoice P d ∈ P ∨ retrieverChoice P d = fallbackAsset := by
  rcases choice_cases P d with ⟨hc, _⟩ | ⟨b, hfm, _, hc⟩
  · exact Or.inr hc
  · rw [hc]
    exact Or.inl (fm_some_facts P d b hfm).2

theorem choice_ne_of_mem (P : List String) (d : List (String × String)) (a : String)
    (hmem : dMem d a = true) (hG : a ≠ fallbackAsset) :
    retrieverChoice P d ≠ a := by
  intro h
  have := choice_eq_of_ne_G P d a h hG
  rw [(fm_some_facts P d a this.1).1] at hmem
  exact Bool.false_ne_true hmem

theorem choiceG_fm (P : List String) (d : List (String × String))
    (hGP : fallbackAsset ∉ P)
    (h : retrieverChoice P d = fallbackAsset) :
    firstMissing P d = none ∨ firstMissing P d = some "" := by
  rcases choice_cases P d with ⟨_, hfm⟩ | ⟨b, hfm, hbne, hc⟩
  · rcases hfm with h1 | h1 | h1
    · exact Or.inl h1
    · exact Or.inr h1
    · exact absurd (fm_some_facts P d _ h1).2 hGP
  · rw [hc] at h
    subst h
    exact absurd (fm_some_facts P d _ hfm).2 hGP

-- ### Step-loop structure lemmas

theorem step_char (resp : Nat → Resp) (goal : String) (n : Nat) :
    (pcAt resp goal n = Node.terminal ∧ pcAt resp goal (n + 1) = Node.terminal ∧
      stAt resp goal (n + 1) = stAt resp goal n) ∨
    (pcAt resp goal n ≠ Node.terminal ∧
      stAt resp goal (n + 1) = runNode (pcAt resp goal n) (resp n) (stAt resp goal n) ∧
      pcAt resp goal (n + 1) = nextNode (pcAt resp goal n) (stAt resp goal (n + 1))) := by
  by_cases h : pcAt resp goal n = Node.terminal
  · left
    refine ⟨h, ?_, ?_⟩ <;>
      simp [pcAt, stAt, traceFn, stepPair, show (traceFn resp goal n).1 = Node.terminal from h]
  · right
    have h' : (traceFn resp goal n).1 ≠ Node.terminal := h
    refine ⟨h, ?_, ?_⟩ <;>
      simp [pcAt, stAt, traceFn, stepPair, h']

theorem nextNode_ne_router (m : Node) (s : AgentState) : nextNode m s ≠ Node.router := by
  cases m <;> simp only [nextNode] <;> try simp
  · split <;> simp
  · split <;> simp
  · split <;> simp
  · split <;> simp

theorem nextNode_eq_planner (m : Node) (s : AgentState)
    (h : nextNode m s = Node.planner) : m = Node.router := by
  cases m <;> revert h <;> simp only [nextNode] <;> intro h <;> first
    | rfl
    | (revert h; split <;> simp)
    | simp at h

theorem pc_router_zero (resp : Nat → Resp) (goal : String) (n : Nat)
    (h : pcAt resp goal n = Node.router) : n = 0 := by
  cases n with
  | zero => rfl
  | succ m =>
      exfalso
      rcases step_char resp goal m with ⟨_, hpc, _⟩ | ⟨_, _, hpc⟩
      · rw [h] at hpc; exact absurd hpc.symm (by simp)
      · rw [h] at hpc; exact absurd hpc.symm (nextNode_ne_router _ _)

theorem pc_planner_one (resp : Nat → Resp) (goal : String) (n : Nat)
    (h : pcAt resp goal n = Node.planner) : n = 1 := by
  cases n with
  | zero => exact absurd h (by simp [pcAt, traceFn])
  | succ m =>
      rcases step_char resp goal m with ⟨_, hpc, _⟩ | ⟨_, _, hpc⟩
      · rw [h] at hpc; exact absurd hpc.symm (by simp)
      · rw [h] at hpc
        have := nextNode_eq_planner _ _ hpc.symm
        rw [pc_router_zero resp goal m this]

theorem runNode_draft_status (m : Node) (r : Resp) (s : AgentState) :
    (runNode m r s).draft_status = s.draft_status := by
  cases m <;> simp only [runNode, router_node, planner_node, retriever_node, retrieval_grader,
    writer_node, hallucination_grader, reviewer_node, publisher_node, chitchat_node,
    clarification_node, query_rewriter_node, feedback_processor_node] <;>
    first
    | rfl
    | (repeat' split
       all_goals rfl)

theorem runNode_plan (m : Node) (r : Resp) (s : AgentState) (hm : m ≠ Node.planner) :
    (runNode m r s).plan = s.plan := by
  cases m
  case planner => exact absurd rfl hm
  all_goals
    simp only [runNode, router_node, retriever_node, retrieval_grader,
      writer_node, hallucination_grader, reviewer_node, publisher_node, chitchat_node,
      clarification_node, query_rewriter_node, feedback_processor_node] <;>
    first
    | rfl
    | (repeat' split
       all_goals rfl)

theorem feedback_id (s : AgentState) (h : s.draft_status = []) :
    feedback_processor_node s = s := by
  obtain ⟨g, p, d, c, i, rd, rc, rt, ca, er, pr, uf, ds, fi⟩ := s
  simp only at h
  subst h
  rfl

theorem status_nil (resp : Nat → Resp) (goal : String) (n : Nat) :
    (stAt resp goal n).draft_status = [] := by
  induction n with
  | zero => rfl
  | succ m ih =>
      rcases step_char resp goal m with ⟨_, _, hst⟩ | ⟨_, hst, _⟩
      · rw [hst]; exact ih
      · rw [hst, runNode_draft_status]; exact ih

theorem plan_step (resp : Nat → Resp) (goal : String) (n : Nat)
    (h : pcAt resp goal n ≠ Node.planner) :
    (stAt resp goal (n + 1)).plan = (stAt resp goal n).plan := by
  rcases step_char resp goal n with ⟨_, _, hst⟩ | ⟨_, hst, _⟩
  · rw [hst]
  · rw [hst, runNode_plan _ _ _ h]

theorem plan_stable (resp : Nat → Resp) (goal : String) (n m : Nat)
    (hn : 2 ≤ n) (hm : n ≤ m) :
    (stAt resp goal m).plan = (stAt resp goal n).plan := by
  induction m, hm using Nat.le_induction with
  | base => rfl
  | succ k hk ih =>
      rw [← ih]
      apply plan_step
      intro hpl
      have := pc_planner_one resp goal k hpl
      omega

theorem writer_node_spec (r : Resp) (s : AgentState) :
    writer_node r s = s ∨
    ∃ a, (a == "") = false ∧
      (writer_node r s).drafts = dSet s.drafts a (applyGuard r.content) ∧
      (writer_node r s).current_asset = some a ∧
      (s.current_asset = some a ∧ dMem s.drafts a = false ∨
       firstMissing s.plan s.drafts = some a ∨
       s.current_asset = some a ∧ firstMissing s.plan s.drafts = none) := by
  rcases hcur : s.current_asset with _ | a0
  · rcases hfm : firstMissing s.plan s.drafts with _ | b
    · left
      simp [writer_node, hcur, hfm]
    · by_cases hb : (b == "") = true
      · left
        simp [writer_node, hcur, hfm, hb]
      · have hbf := Bool.eq_false_iff.mpr hb
        right
        refine ⟨b, hbf, ?_, ?_, Or.inr (Or.inl rfl)⟩ <;>
          simp [writer_node, hcur, hfm, hbf]
  · by_cases ha0 : (a0 == "") = true
    · -- falsy current: recompute
      rcases hfm : firstMissing s.plan s.drafts with _ | b
      · left
        simp [writer_node, hcur, hfm, ha0]
      · by_cases hb : (b == "") = true
        · left
          simp [writer_node, hcur, hfm, ha0, hb]
        · have hbf := Bool.eq_false_iff.mpr hb
          right
          refine ⟨b, hbf, ?_, ?_, Or.inr (Or.inl rfl)⟩ <;>
            simp [writer_node, hcur, hfm, ha0, hbf]
    · have ha0f := Bool.eq_false_iff.mpr ha0
      by_cases hmem : dMem s.drafts a0 = true
      · -- recompute because the asset already has a draft
        rcases hfm : firstMissing s.plan s.drafts with _ | b
        · right
          refine ⟨a0, ha0f, ?_, ?_, Or.inr (Or.inr ⟨rfl, rfl⟩)⟩ <;>
            simp [writer_node, hcur, hfm, ha0f, hmem]
        · by_cases hb : (b == "") = true
          · left
            simp [writer_node, hcur, hfm, ha0f, hmem, hb]
          · have hbf := Bool.eq_false_iff.mpr hb
            right
            refine ⟨b, hbf, ?_, ?_, Or.inr (Or.inl rfl)⟩ <;>
              simp [writer_node, hcur, hfm, ha0f, hmem, hbf]
      · -- keep the stored asset
        have hmemf := Bool.eq_false_iff.mpr hmem
        right
        refine ⟨a0, ha0f, ?_, ?_, Or.inl ⟨rfl, hmemf⟩⟩ <;>
          simp [writer_node, hcur, ha0f, hmemf]

theorem runNode_drafts_mono (m : Node) (r : Resp) (s : AgentState) (k : String)
    (hds : s.draft_status = []) (h : dMem s.drafts k = true) :
    dMem (runNode m r s).drafts k = true := by
  cases m
  case writer =>
    rcases writer_node_spec r s with hid | ⟨a, _, hdr, _, _⟩
    · show dMem (writer_node r s).drafts k = true
      rw [hid]; exact h
    · show dMem (writer_node r s).drafts k = true
      rw [hdr, dMem_dSet, h]; rfl
  case feedback_processor =>
    show dMem (feedback_processor_node s).drafts k = true
    rw [feedback_id s hds]; exact h
  all_goals exact h

theorem drafts_mono_step (resp : Nat → Resp) (goal : String) (n : Nat) (k : String)
    (h : dMem (stAt resp goal n).drafts k = true) :
    dMem (stAt resp goal (n + 1)).drafts k = true := by
  rcases step_char resp goal n with ⟨_, _, hst⟩ | ⟨_, hst, _⟩
  · rw [hst]; exact h
  · rw [hst]
    exact runNode_drafts_mono _ _ _ _ (status_nil resp goal n) h

theorem drafts_mono (resp : Nat → Resp) (goal : String) (n m : Nat) (k : String)
    (hnm : n ≤ m) (h : dMem (stAt resp goal n).drafts k = true) :
    dMem (stAt resp goal m).drafts k = true := by
  induction m, hnm using Nat.le_induction with
  | base => exact h
  | succ j _ ih => exact drafts_mono_step resp goal j k ih

theorem drafts_no_empty (resp : Nat → Resp) (goal : String) (n : Nat) :
    dMem (stAt resp goal n).drafts "" = false := by
  induction n with
  | zero => rfl
  | succ m ih =>
      rcases step_char resp goal m with ⟨_, _, hst⟩ | ⟨_, hst, _⟩
      · rw [hst]; exact ih
      · rw [hst]
        cases hp : pcAt resp goal m
        case writer =>
          show dMem (writer_node (resp m) (stAt resp goal m)).drafts "" = false
          rcases writer_node_spec (resp m) (stAt resp goal m) with hid | ⟨a, hane, hdr, _, _⟩
          · rw [hid]; exact ih
          · rw [hdr, dMem_dSet, ih, hane]; rfl
        case feedback_processor =>
          show dMem (feedback_processor_node (stAt resp goal m)).drafts "" = false
          rw [feedback_id _ (status_nil resp goal m)]; exact ih
        all_goals exact ih

theorem into_qr (resp : Nat → Resp) (goal : String) (n : Nat)
    (h : pcAt resp goal (n + 1) = Node.query_rewriter) :
    (pcAt resp goal n = Node.retrieval_grader ∨ pcAt resp goal n = Node.hallucination_grader) ∧
    (stAt resp goal (n + 1)).retry_count = 0 := by
  rcases step_char resp goal n with ⟨_, hpc, _⟩ | ⟨hne, hst, hpc⟩
  · rw [h] at hpc; exact absurd hpc (by simp)
  · rw [h] at hpc
    cases hp : pcAt resp goal n
    all_goals rw [hp] at hpc
    case retrieval_grader =>
      refine ⟨Or.inl rfl, ?_⟩
      simp only [nextNode] at hpc
      split at hpc
      · rename_i heq
        unfold route_after_retrieval_grade at heq
        split at heq
        · exact absurd heq (by decide)
        · split at heq
          · rename_i h2
            exact Nat.lt_one_iff.mp h2
          · exact absurd heq (by decide)
      · exact absurd hpc (by simp)
    case hallucination_grader =>
      refine ⟨Or.inr rfl, ?_⟩
      simp only [nextNode] at hpc
      split at hpc
      · rename_i heq
        unfold route_after_hallucination_grade at heq
        split at heq
        · rename_i h2
          exact Nat.lt_one_iff.mp h2.2
        · split at heq
          · exact absurd heq (by decide)
          · exact absurd heq (by decide)
      · rename_i heq
        exact absurd hpc (by simp)
      · exact absurd hpc (by simp)
    case router =>
      exfalso
      simp only [nextNode] at hpc
      split at hpc <;> simp at hpc
    case feedback_processor =>
      exfalso
      simp only [nextNode] at hpc
      split at hpc <;> simp at hpc
    all_goals exact absurd hpc (by simp [nextNode])

theorem into_retrieval_grader (resp : Nat → Resp) (goal : String) (n : Nat)
    (h : pcAt resp goal (n + 1) = Node.retrieval_grader) :
    pcAt resp goal n = Node.retriever := by
  rcases step_char resp goal n with ⟨_, hpc, _⟩ | ⟨hne, hst, hpc⟩
  · rw [h] at hpc; exact absurd hpc (by simp)
  · rw [h] at hpc
    cases hp : pcAt resp goal n
    all_goals rw [hp] at hpc
    case router =>
      exfalso; simp only [nextNode] at hpc; split at hpc <;> simp at hpc
    case retrieval_grader =>
      exfalso; simp only [nextNode] at hpc; split at hpc <;> simp at hpc
    case hallucination_grader =>
      exfalso; simp only [nextNode] at hpc; split at hpc <;> simp at hpc
    case feedback_processor =>
      exfalso; simp only [nextNode] at hpc; split at hpc <;> simp at hpc
    all_goals exact absurd hpc (by simp [nextNode])

theorem into_writer (resp : Nat → Resp) (goal : String) (n : Nat)
    (h : pcAt resp goal (n + 1) = Node.writer) :
    pcAt resp goal n = Node.retrieval_grader := by
  rcases step_char resp goal n with ⟨_, hpc, _⟩ | ⟨hne, hst, hpc⟩
  · rw [h] at hpc; exact absurd hpc (by simp)
  · rw [h] at hpc
    cases hp : pcAt resp goal n
    all_goals rw [hp] at hpc
    case router =>
      exfalso; simp only [nextNode] at hpc; split at hpc <;> simp at hpc
    case hallucination_grader =>
      exfalso; simp only [nextNode] at hpc; split at hpc <;> simp at hpc
    case feedback_processor =>
      exfalso; simp only [nextNode] at hpc; split at hpc <;> simp at hpc
    all_goals exact absurd hpc (by simp [nextNode])

theorem into_halluc (resp : Nat → Resp) (goal : String) (n : Nat)
    (h : pcAt resp goal (n + 1) = Node.hallucination_grader) :
    pcAt resp goal n = Node.writer := by
  rcases step_char resp goal n with ⟨_, hpc, _⟩ | ⟨hne, hst, hpc⟩
  · rw [h] at hpc; exact absurd hpc (by simp)
  · rw [h] at hpc
    cases hp : pcAt resp goal n
    all_goals rw [hp] at hpc
    case router =>
      exfalso; simp only [nextNode] at hpc; split at hpc <;> simp at hpc
    case retrieval_grader =>
      exfalso; simp only [nextNode] at hpc; split at hpc <;> simp at hpc
    case hallucination_grader =>
      exfalso; simp only [nextNode] at hpc; split at hpc <;> simp at hpc
    case feedback_processor =>
      exfalso; simp only [nextNode] at hpc; split at hpc <;> simp at hpc
    all_goals exact absurd hpc (by simp [nextNode])

theorem inv_U (resp : Nat → Resp) (goal : String) :
    ∀ n, (pcAt resp goal n = Node.retrieval_grader ∨ pcAt resp goal n = Node.writer ∨
          pcAt resp goal n = Node.hallucination_grader ∨ pcAt resp goal n = Node.query_rewriter) →
      ∃ c, (stAt resp goal n).current_asset = some c ∧
        (dMem (stAt resp goal n).drafts c = true ∨
         c = retrieverChoice (stAt resp goal n).plan (stAt resp goal n).drafts) := by
  intro n
  induction n with
  | zero =>
      intro hmem
      rcases hmem with h | h | h | h <;> simp [pcAt, traceFn] at h
  | succ m ih =>
      intro hmem
      rcases step_char resp goal m with ⟨_, hpc, _⟩ | ⟨hne, hst, hpc⟩
      · exfalso
        rcases hmem with h | h | h | h <;> rw [h] at hpc <;> simp at hpc
      · cases hp : pcAt resp goal m
        all_goals rw [hp] at hst hpc
        case terminal => exact absurd hp hne
        case retriever =>
          rw [hst]
          exact ⟨_, rfl, Or.inr rfl⟩
        case retrieval_grader =>
          rw [hst]
          exact ih (Or.inl hp)
        case hallucination_grader =>
          rw [hst]
          exact ih (Or.inr (Or.inr (Or.inl hp)))
        case writer =>
          rw [hst]
          simp only [runNode]
          rcases writer_node_spec (resp m) (stAt resp goal m) with hid | ⟨a, hane, hdr, hcurw, _⟩
          · rw [hid]
            exact ih (Or.inr (Or.inl hp))
          · refine ⟨a, hcurw, Or.inl ?_⟩
            rw [hdr, dMem_dSet]
            simp
        case router =>
          exfalso
          rcases hmem with hx | hx | hx | hx <;>
            (rw [hx] at hpc
             simp only [nextNode] at hpc
             first
               | (split at hpc <;> simp at hpc)
               | simp at hpc)
        case feedback_processor =>
          exfalso
          rcases hmem with hx | hx | hx | hx <;>
            (rw [hx] at hpc
             simp only [nextNode] at hpc
             first
               | (split at hpc <;> simp at hpc)
               | simp at hpc)
        all_goals
          exfalso
          rcases hmem with hx | hx | hx | hx <;>
            (rw [hx] at hpc
             simp only [nextNode] at hpc
             first
               | (split at hpc <;> simp at hpc)
               | simp at hpc)

theorem writer_plan (r : Resp) (s : AgentState) : (writer_node r s).plan = s.plan := by
  simp only [writer_node]
  repeat' split
  all_goals rfl

theorem writer_retry (r : Resp) (s : AgentState) :
    (writer_node r s).retry_count = s.retry_count := by
  simp only [writer_node]
  repeat' split
  all_goals rfl

theorem plan_no_G (resp : Nat → Resp) (goal : String)
    (hplanG : ∀ k, fallbackAsset ∉ (resp k).planSteps) :
    ∀ n, fallbackAsset ∉ (stAt resp goal n).plan := by
  intro n
  induction n with
  | zero => simp [stAt, traceFn, initState]
  | succ m ih =>
      rcases step_char resp goal m with ⟨_, _, hst⟩ | ⟨hne, hst, _⟩
      · rw [hst]; exact ih
      · rw [hst]
        by_cases hp : pcAt resp goal m = Node.planner
        · rw [hp]
          exact hplanG m
        · rw [runNode_plan _ _ _ hp]
          exact ih

theorem current_at_one (resp : Nat → Resp) (goal : String) :
    (stAt resp goal 1).current_asset = none := rfl

theorem inv_CG (resp : Nat → Resp) (goal : String)
    (hplanG : ∀ k, fallbackAsset ∉ (resp k).planSteps) :
    ∀ n, (stAt resp goal n).current_asset = some fallbackAsset →
      retrieverChoice (stAt resp goal n).plan (stAt resp goal n).drafts = fallbackAsset := by
  intro n
  induction n with
  | zero =>
      intro h
      simp [stAt, traceFn, initState] at h
  | succ m ih =>
      intro hcur
      rcases step_char resp goal m with ⟨_, _, hst⟩ | ⟨hne, hst, _⟩
      · rw [hst] at hcur ⊢
        exact ih hcur
      · rw [hst] at hcur ⊢
        cases hp : pcAt resp goal m
        all_goals rw [hp] at hcur
        case terminal => exact absurd hp hne
        case router => exact ih hcur
        case retrieval_grader => exact ih hcur
        case hallucination_grader => exact ih hcur
        case query_rewriter => exact ih hcur
        case reviewer => exact ih hcur
        case publisher => exact ih hcur
        case chitchat => exact ih hcur
        case clarification => exact ih hcur
        case planner =>
          exfalso
          have h1 : m = 1 := pc_planner_one resp goal m hp
          subst h1
          have hpres : (stAt resp goal 1).current_asset = some fallbackAsset := hcur
          rw [current_at_one] at hpres
          exact Option.noConfusion hpres
        case feedback_processor =>
          simp only [runNode] at hcur ⊢
          rw [feedback_id _ (status_nil resp goal m)] at hcur ⊢
          exact ih hcur
        case retriever =>
          have hch : retrieverChoice (stAt resp goal m).plan (stAt resp goal m).drafts =
              fallbackAsset := Option.some.inj hcur
          exact hch
        case writer =>
          simp only [runNode] at hcur ⊢
          rcases writer_node_spec (resp m) (stAt resp goal m) with hid | ⟨a, hane, hdr, hcurw, hsrc⟩
          · rw [hid] at hcur ⊢
            exact ih hcur
          · have haG : a = fallbackAsset := by
              rw [hcurw] at hcur
              exact Option.some.inj hcur
            subst haG
            rw [writer_plan, hdr]
            have hmono : ∀ x, dMem (stAt resp goal m).drafts x = true →
                dMem (dSet (stAt resp goal m).drafts fallbackAsset
                  (applyGuard (resp m).content)) x = true := by
              intro x hx
              rw [dMem_dSet, hx]
              rfl
            have hchoiceG : retrieverChoice (stAt resp goal m).plan (stAt resp goal m).drafts =
                fallbackAsset := by
              rcases hsrc with ⟨hc, _⟩ | hfm | ⟨hc, _⟩
              · exact ih hc
              · exfalso
                exact plan_no_G resp goal hplanG m (fm_some_facts _ _ _ hfm).2
              · exact ih hc
            rcases choiceG_fm _ _ (plan_no_G resp goal hplanG m) hchoiceG with hfm | hfm
            · have hfm' := fm_none_mono _ _ _ hfm hmono
              simp [retrieverChoice, hfm']
            · have hemp : dMem (dSet (stAt resp goal m).drafts fallbackAsset
                  (applyGuard (resp m).content)) "" = false := by
                rw [dMem_dSet, drafts_no_empty]
                decide
              have hfm' := fm_mono _ _ _ _ hfm hmono hemp
              simp [retrieverChoice, hfm']

theorem stayG_step (resp : Nat → Resp) (goal : String)
    (hplanG : ∀ k, fallbackAsset ∉ (resp k).planSteps) (n : Nat)
    (hcur : (stAt resp goal n).current_asset = some fallbackAsset) :
    (stAt resp goal (n + 1)).current_asset = some fallbackAsset ∧
    (1 ≤ (stAt resp goal n).retry_count → 1 ≤ (stAt resp goal (n + 1)).retry_count) := by
  rcases step_char resp goal n with ⟨_, _, hst⟩ | ⟨hne, hst, _⟩
  · rw [hst]; exact ⟨hcur, id⟩
  · rw [hst]
    cases hp : pcAt resp goal n
    case terminal => exact absurd hp hne
    case router => exact ⟨hcur, id⟩
    case retrieval_grader => exact ⟨hcur, id⟩
    case hallucination_grader => exact ⟨hcur, id⟩
    case reviewer => exact ⟨hcur, id⟩
    case publisher => exact ⟨hcur, id⟩
    case chitchat => exact ⟨hcur, id⟩
    case clarification => exact ⟨hcur, id⟩
    case planner =>
      exfalso
      have h1 := pc_planner_one resp goal n hp
      subst h1
      rw [current_at_one] at hcur
      exact Option.noConfusion hcur
    case query_rewriter =>
      refine ⟨hcur, fun _ => ?_⟩
      show 1 ≤ (stAt resp goal n).retry_count + 1
      omega
    case feedback_processor =>
      simp only [runNode]
      rw [feedback_id _ (status_nil resp goal n)]
      exact ⟨hcur, id⟩
    case retriever =>
      have hCG := inv_CG resp goal hplanG n hcur
      constructor
      · show some (retrieverChoice (stAt resp goal n).plan (stAt resp goal n).drafts) =
          some fallbackAsset
        rw [hCG]
      · intro hr
        have hceq : (stAt resp goal n).current_asset =
            some (retrieverChoice (stAt resp goal n).plan (stAt resp goal n).drafts) := by
          rw [hcur, hCG]
        simp only [runNode, retriever_node]
        rw [if_neg (show ¬ (stAt resp goal n).current_asset ≠
            some (retrieverChoice (stAt resp goal n).plan (stAt resp goal n).drafts) from
            fun hc => hc hceq)]
        exact hr
    case writer =>
      simp only [runNode]
      rcases writer_node_spec (resp n) (stAt resp goal n) with hid | ⟨a, hane, hdr, hcurw, hsrc⟩
      · rw [hid]; exact ⟨hcur, id⟩
      · have haG : a = fallbackAsset := by
          rcases hsrc with ⟨hc, _⟩ | hfm | ⟨hc, _⟩
          · rw [hc] at hcur; exact Option.some.inj hcur
          · exfalso
            have hCG := inv_CG resp goal hplanG n hcur
            rcases choiceG_fm _ _ (plan_no_G resp goal hplanG n) hCG with hn | he
            · rw [hfm] at hn; exact Option.noConfusion hn
            · rw [hfm] at he
              have hae : a = "" := Option.some.inj he
              rw [hae] at hane
              exact absurd hane (by decide)
          · rw [hc] at hcur; exact Option.some.inj hcur
        subst haG
        refine ⟨?_, ?_⟩
        · exact hcurw
        · rw [writer_retry]; exact id

theorem phi_step (resp : Nat → Resp) (goal : String) (a : String)
    (haG : a ≠ fallbackAsset) (hae : (a == "") = false) (n : Nat) (hn2 : 2 ≤ n)
    (hphi : ((stAt resp goal n).current_asset = some a ∧ 1 ≤ (stAt resp goal n).retry_count) ∨
            ((stAt resp goal n).current_asset ≠ some a ∧
              dMem (stAt resp goal n).drafts a = true))
    (hphib : dMem (stAt resp goal n).drafts a = true ∨
             firstMissing (stAt resp goal n).plan (stAt resp goal n).drafts = some a) :
    (((stAt resp goal (n + 1)).current_asset = some a ∧
        1 ≤ (stAt resp goal (n + 1)).retry_count) ∨
     ((stAt resp goal (n + 1)).current_asset ≠ some a ∧
        dMem (stAt resp goal (n + 1)).drafts a = true)) ∧
    (dMem (stAt resp goal (n + 1)).drafts a = true ∨
     firstMissing (stAt resp goal (n + 1)).plan (stAt resp goal (n + 1)).drafts = some a) := by
  rcases step_char resp goal n with ⟨_, _, hst⟩ | ⟨hne, hst, _⟩
  · rw [hst]; exact ⟨hphi, hphib⟩
  · rw [hst]
    cases hp : pcAt resp goal n
    case terminal => exact absurd hp hne
    case router =>
      exfalso
      have := pc_router_zero resp goal n hp
      omega
    case planner =>
      exfalso
      have := pc_planner_one resp goal n hp
      omega
    case retrieval_grader => exact ⟨hphi, hphib⟩
    case hallucination_grader => exact ⟨hphi, hphib⟩
    case reviewer => exact ⟨hphi, hphib⟩
    case publisher => exact ⟨hphi, hphib⟩
    case chitchat => exact ⟨hphi, hphib⟩
    case clarification => exact ⟨hphi, hphib⟩
    case query_rewriter =>
      refine ⟨?_, hphib⟩
      rcases hphi with ⟨hc, hr⟩ | ⟨hc, hm⟩
      · left
        refine ⟨hc, ?_⟩
        show 1 ≤ (stAt resp goal n).retry_count + 1
        omega
      · right; exact ⟨hc, hm⟩
    case feedback_processor =>
      simp only [runNode]
      rw [feedback_id _ (status_nil resp goal n)]
      exact ⟨hphi, hphib⟩
    case retriever =>
      refine ⟨?_, hphib⟩
      by_cases hch : retrieverChoice (stAt resp goal n).plan (stAt resp goal n).drafts = a
      · rcases hphi with ⟨hc, hr⟩ | ⟨hc, hm⟩
        · left
          constructor
          · show some (retrieverChoice (stAt resp goal n).plan (stAt resp goal n).drafts) =
              some a
            rw [hch]
          · have hceq : (stAt resp goal n).current_asset =
                some (retrieverChoice (stAt resp goal n).plan (stAt resp goal n).drafts) := by
              rw [hc, hch]
            simp only [runNode, retriever_node]
            rw [if_neg (show ¬ (stAt resp goal n).current_asset ≠
                some (retrieverChoice (stAt resp goal n).plan (stAt resp goal n).drafts) from
                fun hcontra => hcontra hceq)]
            exact hr
        · exact absurd hch (choice_ne_of_mem _ _ _ hm haG)
      · right
        constructor
        · show some (retrieverChoice (stAt resp goal n).plan (stAt resp goal n).drafts) ≠
            some a
          intro hcontra
          exact hch (Option.some.inj hcontra)
        · rcases hphi with ⟨hc, _⟩ | ⟨_, hm⟩
          · rcases hphib with hm | hfm
            · exact hm
            · exfalso
              apply hch
              simp [retrieverChoice, hfm, hae]
          · exact hm
    case writer =>
      simp only [runNode]
      rcases writer_node_spec (resp n) (stAt resp goal n) with hid | ⟨b, hbne, hdr, hcurw, hsrc⟩
      · rw [hid]; exact ⟨hphi, hphib⟩
      · have hplw := writer_plan (resp n) (stAt resp goal n)
        have hmono : ∀ x, dMem (stAt resp goal n).drafts x = true →
            dMem (dSet (stAt resp goal n).drafts b (applyGuard (resp n).content)) x = true := by
          intro x hx
          rw [dMem_dSet, hx]
          rfl
        have hphib' : dMem (writer_node (resp n) (stAt resp goal n)).drafts a = true ∨
            firstMissing (writer_node (resp n) (stAt resp goal n)).plan
              (writer_node (resp n) (stAt resp goal n)).drafts = some a := by
          by_cases hmem' :
              dMem (dSet (stAt resp goal n).drafts b (applyGuard (resp n).content)) a = true
          · left; rw [hdr]; exact hmem'
          · right
            rw [hdr, hplw]
            rcases hphib with hm | hfm
            · exact absurd (hmono a hm) hmem'
            · exact fm_mono _ _ _ _ hfm hmono (Bool.eq_false_iff.mpr hmem')
        refine ⟨?_, hphib'⟩
        by_cases hba : b = a
        · subst hba
          rcases hphi with ⟨hc, hr⟩ | ⟨hc, hm⟩
          · left
            refine ⟨hcurw, ?_⟩
            rw [writer_retry]
            exact hr
          · exfalso
            rcases hsrc with ⟨hc2, _⟩ | hfm | ⟨hc2, _⟩
            · exact hc hc2
            · rw [(fm_some_facts _ _ _ hfm).1] at hm
              exact Bool.false_ne_true hm
            · exact hc hc2
        · right
          constructor
          · rw [hcurw]
            intro hco
            exact hba (Option.some.inj hco)
          · rw [hdr, dMem_dSet]
            have hbaf : (b == a) = false := by
              cases hx : (b == a) with
              | true => exact absurd (beq_iff_eq.mp hx) hba
              | false => rfl
            rw [hbaf, Bool.or_false]
            rcases hphi with ⟨hc, _⟩ | ⟨_, hm⟩
            · by_contra hnm
              have hnm' : dMem (stAt resp goal n).drafts a = false :=
                Bool.eq_false_iff.mpr hnm
              rcases hphib with hm | hfm
              · rw [hnm'] at hm
                exact Bool.false_ne_true hm
              · rcases hsrc with ⟨hc2, _⟩ | hfm2 | ⟨hc2, _⟩
                · rw [hc] at hc2
                  exact hba (Option.some.inj hc2).symm
                · rw [hfm] at hfm2
                  exact hba (Option.some.inj hfm2).symm
                · rw [hc] at hc2
                  exact hba (Option.some.inj hc2).symm
            · exact hm

theorem pc_qr_ge_two (resp : Nat → Resp) (goal : String) (i : Nat)
    (h : pcAt resp goal i = Node.query_rewriter) : 2 ≤ i := by
  match i with
  | 0 => simp [pcAt, traceFn] at h
  | 1 =>
      exfalso
      rcases step_char resp goal 0 with ⟨ht, _, _⟩ | ⟨_, _, hpc⟩
      · simp [pcAt, traceFn] at ht
      · have h1 : Node.query_rewriter = nextNode Node.router (stAt resp goal 1) := by
          rw [← h]
          exact hpc
        simp only [nextNode] at h1
        split at h1 <;> simp at h1
  | (k + 2) => omega

/-- C3 (amended): in any run of the step loop in which the retrieval grader
always answers "no" and the planner never emits the literal fallback asset
name, the query_rewriter node is never entered twice with the same
current_asset. -/
theorem c3_query_rewriter_at_most_once (resp : Nat → Resp) (goal : String)
    (hgrade : ∀ k, (resp k).retGrade = "no")
    (hplanG : ∀ k, fallbackAsset ∉ (resp k).planSteps) :
    ∀ i j, i < j → pcAt resp goal i = Node.query_rewriter →
      pcAt resp goal j = Node.query_rewriter →
      (stAt resp goal i).current_asset ≠ (stAt resp goal j).current_asset := by
  intro i j hij hqi hqj hceq
  obtain ⟨a, hai, hsrc⟩ := inv_U resp goal i (Or.inr (Or.inr (Or.inr hqi)))
  have haj : (stAt resp goal j).current_asset = some a := by
    rw [← hceq]; exact hai
  have hj2 := pc_qr_ge_two resp goal j hqj
  obtain ⟨j', rfl⟩ : ∃ j', j = j' + 1 := ⟨j - 1, by omega⟩
  have hj0 := (into_qr resp goal j' hqj).2
  have hi2 := pc_qr_ge_two resp goal i hqi
  rcases step_char resp goal i with ⟨ht, _, _⟩ | ⟨_, hsti, _⟩
  · rw [hqi] at ht
    exact absurd ht (by simp)
  · rw [hqi] at hsti
    have hcur1 : (stAt resp goal (i + 1)).current_asset = some a := by
      rw [hsti]; exact hai
    have hret1 : 1 ≤ (stAt resp goal (i + 1)).retry_count := by
      rw [hsti]
      show 1 ≤ (stAt resp goal i).retry_count + 1
      omega
    by_cases haG : a = fallbackAsset
    · subst haG
      have hIG : ∀ m, i + 1 ≤ m →
          (stAt resp goal m).current_asset = some fallbackAsset ∧
          1 ≤ (stAt resp goal m).retry_count := by
        intro m hm
        induction m, hm using Nat.le_induction with
        | base => exact ⟨hcur1, hret1⟩
        | succ k hk ihk =>
            have hstep := stayG_step resp goal hplanG k ihk.1
            exact ⟨hstep.1, hstep.2 ihk.2⟩
      have h2 := (hIG (j' + 1) (by omega)).2
      rw [hj0] at h2
      omega
    · have hae : (a == "") = false := by
        rcases hsrc with hm | hch
        · cases hx : (a == "") with
          | false => rfl
          | true =>
              exfalso
              have hax : a = "" := beq_iff_eq.mp hx
              rw [hax, drafts_no_empty resp goal i] at hm
              exact Bool.false_ne_true hm
        · exact (choice_eq_of_ne_G _ _ _ hch.symm haG).2
      have hphib1 : dMem (stAt resp goal (i + 1)).drafts a = true ∨
          firstMissing (stAt resp goal (i + 1)).plan (stAt resp goal (i + 1)).drafts =
            some a := by
        rw [hsti]
        rcases hsrc with hm | hch
        · left; exact hm
        · right; exact (choice_eq_of_ne_G _ _ _ hch.symm haG).1
      have hPHI : ∀ m, i + 1 ≤ m →
          (((stAt resp goal m).current_asset = some a ∧
              1 ≤ (stAt resp goal m).retry_count) ∨
           ((stAt resp goal m).current_asset ≠ some a ∧
              dMem (stAt resp goal m).drafts a = true)) ∧
          (dMem (stAt resp goal m).drafts a = true ∨
           firstMissing (stAt resp goal m).plan (stAt resp goal m).drafts = some a) := by
        intro m hm
        induction m, hm using Nat.le_induction with
        | base => exact ⟨Or.inl ⟨hcur1, hret1⟩, hphib1⟩
        | succ k hk ihk =>
            exact phi_step resp goal a haG hae k (by omega) ihk.1 ihk.2
      rcases (hPHI (j' + 1) (by omega)).1 with ⟨_, hr⟩ | ⟨hc, _⟩
      · rw [hj0] at hr
        omega
      · exact hc haj

theorem inv4 (resp : Nat → Resp) (goal : String) : ∀ n,
    (∀ k, dMem (stAt resp goal n).drafts k = true →
        k ∈ (stAt resp goal n).plan ∨ k = fallbackAsset) ∧
    (∀ c, (stAt resp goal n).current_asset = some c →
        c ∈ (stAt resp goal n).plan ∨ c = fallbackAsset ∨
        dMem (stAt resp goal n).drafts c = true) := by
  intro n
  induction n with
  | zero =>
      constructor
      · intro k hk
        have h2 : dMem ([] : List (String × String)) k = true := hk
        simp [dMem] at h2
      · intro c hc
        have h2 : (none : Option String) = some c := hc
        exact Option.noConfusion h2
  | succ m ih =>
      rcases step_char resp goal m with ⟨_, _, hst⟩ | ⟨hne, hst, _⟩
      · rw [hst]; exact ih
      · rw [hst]
        cases hp : pcAt resp goal m
        case terminal => exact absurd hp hne
        case router => exact ih
        case retrieval_grader => exact ih
        case hallucination_grader => exact ih
        case reviewer => exact ih
        case publisher => exact ih
        case chitchat => exact ih
        case clarification => exact ih
        case query_rewriter => exact ih
        case planner =>
          have h1 := pc_planner_one resp goal m hp
          subst h1
          constructor
          · intro k hk
            have h2 : dMem ([] : List (String × String)) k = true := hk
            simp [dMem] at h2
          · intro c hc
            have h2 : (none : Option String) = some c := hc
            exact Option.noConfusion h2
        case feedback_processor =>
          simp only [runNode]
          rw [feedback_id _ (status_nil resp goal m)]
          exact ih
        case retriever =>
          constructor
          · intro k hk
            exact ih.1 k hk
          · intro c hc
            have hcc : c = retrieverChoice (stAt resp goal m).plan (stAt resp goal m).drafts :=
              (Option.some.inj hc).symm
            rcases choice_mem_or_G (stAt resp goal m).plan (stAt resp goal m).drafts with
              hin | hG
            · left
              rw [hcc]
              exact hin
            · right; left
              rw [hcc, hG]
        case writer =>
          simp only [runNode]
          rcases writer_node_spec (resp m) (stAt resp goal m) with hid | ⟨b, hbne, hdr, hcurw, hsrc⟩
          · rw [hid]; exact ih
          · have hbsrc : b ∈ (stAt resp goal m).plan ∨ b = fallbackAsset ∨
                dMem (stAt resp goal m).drafts b = true := by
              rcases hsrc with ⟨hc2, _⟩ | hfm | ⟨hc2, _⟩
              · exact ih.2 b hc2
              · exact Or.inl (fm_some_facts _ _ _ hfm).2
              · exact ih.2 b hc2
            constructor
            · intro k hk
              rw [hdr, dMem_dSet] at hk
              rw [writer_plan]
              rcases Bool.or_eq_true_iff.mp hk with hk1 | hk2
              · exact ih.1 k hk1
              · have hbk : b = k := beq_iff_eq.mp hk2
                subst hbk
                rcases hbsrc with h1 | h1 | h1
                · exact Or.inl h1
                · exact Or.inr h1
                · exact ih.1 b h1
            · intro c hc
              rw [hcurw] at hc
              have hbc : b = c := Option.some.inj hc
              subst hbc
              right; right
              rw [hdr, dMem_dSet]
              simp

/-- C4 (amended): in every state reachable by the step loop, the keys of the
drafts mapping lie in the plan entries extended by the retriever fallback
asset name "general marketing assets". -/
theorem c4_drafts_keys_in_plan_or_fallback (resp : Nat → Resp) (goal : String)
    (n : Nat) (k : String) (hk : dMem (stAt resp goal n).drafts k = true) :
    k ∈ (stAt resp goal n).plan ∨ k = fallbackAsset :=
  (inv4 resp goal n).1 k hk


/-- C3 witness: in a run satisfying both hypotheses, the query_rewriter
steps 4 and 11 carry distinct current assets. -/
theorem c3_witness :
    pcAt respC3w "g" 4 = Node.query_rewriter ∧
    pcAt respC3w "g" 11 = Node.query_rewriter ∧
    (stAt respC3w "g" 4).current_asset ≠ (stAt respC3w "g" 11).current_asset :=
  ⟨by decide, by decide,
   c3_query_rewriter_at_most_once respC3w "g" (fun _ => rfl)
     (fun _ => show fallbackAsset ∉ ["A", "B"] from by decide)
     4 11 (by decide) (by decide) (by decide)⟩

/-- C4 witness: the fallback draft key of the empty-plan run satisfies the
amended invariant. -/
theorem c4_witness :
    fallbackAsset ∈ (stAt respC4 "g" 5).plan ∨ fallbackAsset = fallbackAsset :=
  c4_drafts_keys_in_plan_or_fallback respC4 "g" 5 fallbackAsset (by decide)
